import Mathlib

/-!
Shallow embedding of the `pallet-multisig` wallet pallet
(`src/pallets/multisig/src/lib.rs`) and verification of its specification.

Modelling conventions:
* `AccountId` is modelled as a list of bytes (the common `AccountId32` shape);
  accounts are compared by decidable equality, as in the source.
* The external blake2_256 hashing capability and the SCALE encoding of a
  runtime call are abstract function parameters `blake` and `encode`
  (they are external crates `sp_io` / `codec`, not part of this repository).
* Storage maps (`StorageMap`, `StorageDoubleMap`) are association lists with
  `mapGet` / `mapInsert` / `mapErase` / `clearPrefix` mirroring
  `get` / `insert` / `remove` / `clear_prefix`; `ValueQuery` storage reads
  go through `getD` with the type's default, as in FRAME.
* `u32` checked arithmetic is modelled on `Nat` with an explicit overflow
  test against `u32Max` (`checked_add(1)` fails exactly when the counter
  has reached `u32::MAX`).
* Each extrinsic body is translated statement by statement into a function
  `PalletState → PalletState × Except Error Unit`: storage writes are threaded
  in source order, and an early `?`-return yields the state built so far, so
  that atomicity-on-error is a provable property rather than a baked-in one.
* The action dispatcher (`call.dispatch(...)`) is an abstract parameter that
  may transform the whole pallet state and return a result, which models the
  fact that a dispatched runtime call can re-enter this pallet (e.g. the
  self-destruction scenario).
-/

namespace MultisigPallet

/-- `u32::MAX`. -/
def u32Max : Nat := 4294967295

/-- Account identities, modelled as byte lists (`AccountId32`-shaped). -/
abbrev AccountId := List Nat

/-- Association-list lookup, mirroring `StorageMap::get`. -/
def mapGet {K V : Type} [DecidableEq K] : List (K × V) → K → Option V
  | [], _ => none
  | (k', v) :: m, k => if k = k' then some v else mapGet m k

/-- Remove every binding of key `k`, mirroring `StorageMap::remove`. -/
def mapErase {K V : Type} [DecidableEq K] : List (K × V) → K → List (K × V)
  | [], _ => []
  | (k', v) :: m, k => if k' = k then mapErase m k else (k', v) :: mapErase m k

/-- Insert-or-overwrite a binding, mirroring `StorageMap::insert`. -/
def mapInsert {K V : Type} [DecidableEq K] (m : List (K × V)) (k : K) (v : V) : List (K × V) :=
  (k, v) :: mapErase m k

/-- Remove every binding whose first key component is `mid`, mirroring
`StorageDoubleMap::clear_prefix`. -/
def clearPrefix {V : Type} : List ((Nat × Nat) × V) → Nat → List ((Nat × Nat) × V)
  | [], _ => []
  | (k, v) :: m, mid => if k.1 = mid then clearPrefix m mid else (k, v) :: clearPrefix m mid

/-!
## Address derivation (`multi_account_id`)

The source computes `(b"pba/multisig", seed).using_encoded(blake2_256)` and
decodes the 32-byte digest into an `AccountId` through `TrailingZeroInput`,
which serves the available bytes and then pads with zeroes forever, so the
fixed-width account decode can never run out of input.
-/

/-- SCALE little-endian encoding of a `u32` value. -/
def u32LEBytes (n : Nat) : List Nat :=
  [n % 256, n / 256 % 256, n / 65536 % 256, n / 16777216 % 256]

/-- The bytes of the namespace tag `b"pba/multisig"`. -/
def multisigNamespace : List Nat :=
  [112, 98, 97, 47, 109, 117, 108, 116, 105, 115, 105, 103]

/-- SCALE encoding of the tuple `(b"pba/multisig", seed)` fed to blake2_256. -/
def deriveEntropyInput (seed : Nat) : List Nat :=
  multisigNamespace ++ u32LEBytes seed

/-- `TrailingZeroInput::read`: serve the first `n` bytes of `data`, padding
with zeroes once `data` is exhausted. The Rust implementation never returns
an error. -/
def trailingZeroRead (data : List Nat) (n : Nat) : List Nat :=
  data.take n ++ List.replicate (n - data.length) 0

/-- The fixed-width account decode applied to a `TrailingZeroInput` over
`entropy`: read `width` bytes; the decode fails (the `expect` branch of
`multi_account_id`) exactly when fewer than `width` bytes could be served. -/
def decodeAccountFromTrailingZero (width : Nat) (entropy : List Nat) : Option AccountId :=
  let bytes := trailingZeroRead entropy width
  if bytes.length = width then some bytes else none

/-- `Pallet::multi_account_id`: hash the namespaced seed with the external
`blake` capability and decode the digest into an account identity. The
`getD` arm corresponds to the `expect` in the source. -/
def multi_account_id (blake : List Nat → List Nat) (seed : Nat) : AccountId :=
  let entropy := blake (deriveEntropyInput seed)
  (decodeAccountFromTrailingZero 32 entropy).getD (List.replicate 32 0)

/-!
## Data model

`Multisig`, `Proposal`, the error enum, the event enum and the pallet's
storage, translated from `lib.rs`. `E` is the abstract error type of the
inner dispatcher (`DispatchError` of the host runtime).
-/

/-- `Multisig { owners, threshold }`. The `BoundedVec` bound `MaxOwners` is
tracked by the wallet invariant rather than by the type. -/
structure Multisig where
  owners : List AccountId
  threshold : Nat
deriving DecidableEq

/-- `Proposal { call_hash, executed }`. -/
structure Proposal where
  call_hash : List Nat
  executed : Bool
deriving DecidableEq

/-- `Error<T>` of the pallet. -/
inductive Error where
  | StorageOverflow
  | TooManyOwners
  | InvalidThreshold
  | MultisigNotFound
  | NotAnOwner
  | ProposalNotFound
  | AlreadyExecuted
  | AlreadyConfirmed
  | MustBeMultisig
  | CallHashMismatch
  | NotEnoughApprovals
  | NonZeroBalance
deriving DecidableEq

/-- `Event<T>` of the pallet; `E` is the inner dispatch error detail. -/
inductive Event (E : Type) where
  | MultisigCreated (creator : AccountId) (multisig_id : Nat) (multisig_account : AccountId)
  | ProposalSubmitted (multisig_id proposal_index : Nat) (call_hash : List Nat)
  | Confirmation (who : AccountId) (multisig_id proposal_index : Nat)
  | ProposalExecuted (multisig_id proposal_index : Nat) (result : Except E Unit)
  | MultisigDestroyed (multisig_id : Nat)

/-- The pallet's storage items plus the event deposit list. -/
structure PalletState (E : Type) where
  nextMultisigId : Nat
  multisigs : List (Nat × Multisig)
  nextProposalIndex : List (Nat × Nat)
  proposals : List ((Nat × Nat) × Proposal)
  approvals : List ((Nat × Nat) × List AccountId)
  events : List (Event E)

/-- Genesis storage: all maps empty, counters zero. -/
def initialState (E : Type) : PalletState E :=
  { nextMultisigId := 0, multisigs := [], nextProposalIndex := [],
    proposals := [], approvals := [], events := [] }

/-- `NextProposalIndex` is `ValueQuery` storage: absent keys read as `0`. -/
def nextProposalIndexOf {E : Type} (s : PalletState E) (mid : Nat) : Nat :=
  (mapGet s.nextProposalIndex mid).getD 0

/-- `Approvals` is `ValueQuery` storage: absent keys read as the empty list. -/
def approvalsOf {E : Type} (s : PalletState E) (mid idx : Nat) : List AccountId :=
  (mapGet s.approvals (mid, idx)).getD []

deriving instance DecidableEq for Except

/-- `Except.isOk`, needed as a `Bool` test for `result.is_ok()`. -/
def exceptIsOk {ε α : Type} : Except ε α → Bool
  | .ok _ => true
  | .error _ => false

/-!
## The five extrinsics

Each function mirrors the body of the corresponding `#[pallet::call]` item.
`origin` has already passed `ensure_signed`, so it appears as the signed
account. The pair returned is (pallet storage in the state the body leaves it,
dispatch result): an early error return yields the storage written so far.
-/

/-- `create_multisig(origin, owners, threshold)`. -/
def create_multisig {E : Type} (blake : List Nat → List Nat) (maxOwners : Nat)
    (s : PalletState E) (who : AccountId) (owners : List AccountId) (threshold : Nat) :
    PalletState E × Except Error Unit :=
  -- let bounded_owners = owners.try_into().map_err(TooManyOwners)?
  if owners.length > maxOwners then (s, .error .TooManyOwners)
  -- ensure!(threshold > 0 && threshold <= bounded_owners.len(), InvalidThreshold)
  else if ¬ (threshold > 0 ∧ threshold ≤ owners.length) then (s, .error .InvalidThreshold)
  else
    let multisig_id := s.nextMultisigId
    -- NextMultisigId::put(multisig_id.checked_add(1).ok_or(StorageOverflow)?)
    if u32Max ≤ multisig_id then (s, .error .StorageOverflow)
    else
      let multisig_account := multi_account_id blake multisig_id
      ({ s with
          nextMultisigId := multisig_id + 1,
          multisigs := mapInsert s.multisigs multisig_id ⟨owners, threshold⟩,
          events := s.events ++ [.MultisigCreated who multisig_id multisig_account] },
        .ok ())

/-- `submit_proposal(origin, multisig_id, call)`. -/
def submit_proposal {C E : Type} (blake : List Nat → List Nat) (encode : C → List Nat)
    (maxOwners : Nat) (s : PalletState E) (who : AccountId) (multisig_id : Nat) (call : C) :
    PalletState E × Except Error Unit :=
  match mapGet s.multisigs multisig_id with
  | none => (s, .error .MultisigNotFound)
  | some multisig =>
    -- ensure!(multisig.owners.contains(&who), NotAnOwner)
    if who ∈ multisig.owners then
      let proposal_index := nextProposalIndexOf s multisig_id
      -- proposal_index.checked_add(1).ok_or(StorageOverflow)?
      if u32Max ≤ proposal_index then (s, .error .StorageOverflow)
      else
        let s1 := { s with
          nextProposalIndex := mapInsert s.nextProposalIndex multisig_id (proposal_index + 1) }
        let call_hash := blake (encode call)
        let s2 := { s1 with
          proposals := mapInsert s1.proposals (multisig_id, proposal_index) ⟨call_hash, false⟩ }
        -- approvals.try_push(who).map_err(TooManyOwners)? on a fresh BoundedVec:
        -- fails exactly when the bound MaxOwners is zero.
        if 1 ≤ maxOwners then
          ({ s2 with
              approvals := mapInsert s2.approvals (multisig_id, proposal_index) [who],
              events := s2.events ++ [.ProposalSubmitted multisig_id proposal_index call_hash] },
            .ok ())
        else (s2, .error .TooManyOwners)
    else (s, .error .NotAnOwner)

/-- `confirm_proposal(origin, multisig_id, proposal_index)`. -/
def confirm_proposal {E : Type} (maxOwners : Nat) (s : PalletState E) (who : AccountId)
    (multisig_id proposal_index : Nat) : PalletState E × Except Error Unit :=
  match mapGet s.multisigs multisig_id with
  | none => (s, .error .MultisigNotFound)
  | some multisig =>
    if who ∈ multisig.owners then
      match mapGet s.proposals (multisig_id, proposal_index) with
      | none => (s, .error .ProposalNotFound)
      | some proposal =>
        -- ensure!(!proposal.executed, AlreadyExecuted)
        if proposal.executed then (s, .error .AlreadyExecuted)
        else
          let approvals := approvalsOf s multisig_id proposal_index
          -- ensure!(!approvals.contains(&who), AlreadyConfirmed)
          if who ∈ approvals then (s, .error .AlreadyConfirmed)
          -- approvals.try_push(who).map_err(TooManyOwners)?
          else if approvals.length + 1 ≤ maxOwners then
            ({ s with
                approvals := mapInsert s.approvals (multisig_id, proposal_index)
                  (approvals ++ [who]),
                events := s.events ++ [.Confirmation who multisig_id proposal_index] },
              .ok ())
          else (s, .error .TooManyOwners)
    else (s, .error .NotAnOwner)

/-- `execute_proposal(origin, multisig_id, proposal_index, call)`. The caller
`_who` is signed but otherwise unused, as in the source. `dispatch` is the
external action dispatcher; it receives the payload, the authority identity
and the current state, and returns the transformed state plus the inner
result. -/
def execute_proposal {C E : Type} (blake : List Nat → List Nat) (encode : C → List Nat)
    (dispatch : C → AccountId → PalletState E → PalletState E × Except E Unit)
    (s : PalletState E) (_who : AccountId) (multisig_id proposal_index : Nat) (call : C) :
    PalletState E × Except Error Unit :=
  match mapGet s.multisigs multisig_id with
  | none => (s, .error .MultisigNotFound)
  | some multisig =>
    match mapGet s.proposals (multisig_id, proposal_index) with
    | none => (s, .error .ProposalNotFound)
    | some proposal =>
      if proposal.executed then (s, .error .AlreadyExecuted)
      else
        -- ensure!(proposal.call_hash == blake2_256(&call.encode()), CallHashMismatch)
        let call_hash := blake (encode call)
        if proposal.call_hash = call_hash then
          -- ensure!(approvals.len() >= multisig.threshold, NotEnoughApprovals)
          let approvals := approvalsOf s multisig_id proposal_index
          if multisig.threshold ≤ approvals.length then
            -- let result = call.dispatch(RawOrigin::Signed(multi_account_id).into())
            let multisig_account := multi_account_id blake multisig_id
            let dr := dispatch call multisig_account s
            -- if result.is_ok() && Multisigs::contains_key(multisig_id) { executed = true }
            let s2 :=
              if exceptIsOk dr.2 && (mapGet dr.1.multisigs multisig_id).isSome then
                { dr.1 with
                    proposals := mapInsert dr.1.proposals (multisig_id, proposal_index)
                      { proposal with executed := true } }
              else dr.1
            ({ s2 with
                events := s2.events ++ [.ProposalExecuted multisig_id proposal_index dr.2] },
              .ok ())
          else (s, .error .NotEnoughApprovals)
        else (s, .error .CallHashMismatch)

/-- `destroy_multisig(origin, multisig_id)`. `balance` is the external
balance oracle (`T::Currency::free_balance`). -/
def destroy_multisig {E : Type} (blake : List Nat → List Nat) (balance : AccountId → Nat)
    (s : PalletState E) (who : AccountId) (multisig_id : Nat) :
    PalletState E × Except Error Unit :=
  let multisig_account := multi_account_id blake multisig_id
  -- ensure!(who == multisig_account, MustBeMultisig)
  if who = multisig_account then
    match mapGet s.multisigs multisig_id with
    | none => (s, .error .MultisigNotFound)
    | some _multisig =>
      -- ensure!(balance.is_zero(), NonZeroBalance)
      if balance multisig_account = 0 then
        ({ s with
            multisigs := mapErase s.multisigs multisig_id,
            nextProposalIndex := mapErase s.nextProposalIndex multisig_id,
            proposals := clearPrefix s.proposals multisig_id,
            approvals := clearPrefix s.approvals multisig_id,
            events := s.events ++ [.MultisigDestroyed multisig_id] },
          .ok ())
      else (s, .error .NonZeroBalance)
  else (s, .error .MustBeMultisig)

/-!
## Invariants and reachability

`Fresh` (all wallet keys are below the id counter), `WalletInv` (stored
wallet shape) and `ApprovalInv` (stored approval-set shape) are together
preserved by every extrinsic; `Reachable` closes the initial state under the
five extrinsics, where the action dispatcher handed to `execute_proposal` is
required to preserve the invariant (in the real runtime it re-enters
extrinsics, each of which does).
-/

/-- Every stored wallet key is below the id counter (so the next id is fresh). -/
def Fresh {E : Type} (s : PalletState E) : Prop :=
  ∀ k m, mapGet s.multisigs k = some m → k < s.nextMultisigId

/-- Shape of every stored wallet record: `1 ≤ threshold ≤ owners.length ≤ maxOwners`. -/
def WalletInv {E : Type} (maxOwners : Nat) (s : PalletState E) : Prop :=
  ∀ mid m, mapGet s.multisigs mid = some m →
    1 ≤ m.threshold ∧ m.threshold ≤ m.owners.length ∧ m.owners.length ≤ maxOwners

/-- Shape of every stored non-empty approval set: its wallet exists, its
members are owners, it has no duplicates, and it is no longer than the
owner list. -/
def ApprovalInv {E : Type} (s : PalletState E) : Prop :=
  ∀ mid idx l, mapGet s.approvals (mid, idx) = some l → l ≠ [] →
    ∃ m, mapGet s.multisigs mid = some m ∧ (∀ a ∈ l, a ∈ m.owners) ∧
      l.Nodup ∧ l.length ≤ m.owners.length

/-- The conjunction of the three storage invariants. -/
def GInv {E : Type} (maxOwners : Nat) (s : PalletState E) : Prop :=
  Fresh s ∧ WalletInv maxOwners s ∧ ApprovalInv s

/-- A dispatcher is admissible when it preserves the storage invariant (the
real dispatcher re-enters extrinsics, each of which does). -/
def PreservesGInv {C E : Type} (maxOwners : Nat)
    (dispatch : C → AccountId → PalletState E → PalletState E × Except E Unit) : Prop :=
  ∀ c a s, GInv maxOwners s → GInv maxOwners (dispatch c a s).1

inductive Reachable {C E : Type} (blake : List Nat → List Nat) (encode : C → List Nat)
    (maxOwners : Nat) : PalletState E → Prop where
  | init : Reachable blake encode maxOwners (initialState E)
  | create (s : PalletState E) (who : AccountId) (owners : List AccountId) (threshold : Nat) :
      Reachable blake encode maxOwners s →
      Reachable blake encode maxOwners (create_multisig blake maxOwners s who owners threshold).1
  | submit (s : PalletState E) (who : AccountId) (multisig_id : Nat) (call : C) :
      Reachable blake encode maxOwners s →
      Reachable blake encode maxOwners
        (submit_proposal blake encode maxOwners s who multisig_id call).1
  | confirm (s : PalletState E) (who : AccountId) (multisig_id proposal_index : Nat) :
      Reachable blake encode maxOwners s →
      Reachable blake encode maxOwners
        (confirm_proposal maxOwners s who multisig_id proposal_index).1
  | execute (dispatch : C → AccountId → PalletState E → PalletState E × Except E Unit)
      (s : PalletState E) (who : AccountId) (multisig_id proposal_index : Nat) (call : C) :
      PreservesGInv maxOwners dispatch →
      Reachable blake encode maxOwners s →
      Reachable blake encode maxOwners
        (execute_proposal blake encode dispatch s who multisig_id proposal_index call).1
  | destroy (balance : AccountId → Nat) (s : PalletState E) (who : AccountId)
      (multisig_id : Nat) :
      Reachable blake encode maxOwners s →
      Reachable blake encode maxOwners (destroy_multisig blake balance s who multisig_id).1

/-!
## Fixtures for concrete evaluation

Small concrete instances (`C := Nat`, `E := Unit`, identity hash, singleton
encoding, a pass-through dispatcher, `MaxOwners := 10`) used to evaluate the
theorems below on closed inputs.
-/

/-- Concrete stand-in for the external blake2_256 capability. -/
def wBlake : List Nat → List Nat := fun l => l

/-- Concrete stand-in for the SCALE call encoding. -/
def wEncode : Nat → List Nat := fun n => [n]

/-- A dispatcher that leaves the state unchanged and reports success. -/
def wDispatch : Nat → AccountId → PalletState Unit → PalletState Unit × Except Unit Unit :=
  fun _ _ s => (s, .ok ())

/-- A dispatcher that leaves the state unchanged and reports failure. -/
def wDispatchFail : Nat → AccountId → PalletState Unit → PalletState Unit × Except Unit Unit :=
  fun _ _ s => (s, .error ())

/-- Wallet 0 = { owners := [[1], [2]], threshold := 2 } created from genesis. -/
def wsCreated : PalletState Unit :=
  (create_multisig wBlake 10 (initialState Unit) [1] [[1], [2]] 2).1

/-- Proposal 0 for call `5` submitted by owner `[1]` on `wsCreated`. -/
def wsSubmitted : PalletState Unit :=
  (submit_proposal wBlake wEncode 10 wsCreated [1] 0 5).1

/-- `wsSubmitted` after owner `[2]` confirms proposal 0 (quorum reached). -/
def wsConfirmed : PalletState Unit :=
  (confirm_proposal 10 wsSubmitted [2] 0 0).1

theorem mapGet_erase {K V : Type} [DecidableEq K] (m : List (K × V)) (k k' : K) :
    mapGet (mapErase m k) k' = if k' = k then none else mapGet m k' := by
  induction m with
  | nil => simp [mapErase, mapGet]
  | cons p rest ih =>
    obtain ⟨pk, pv⟩ := p
    simp only [mapErase]
    by_cases hp : pk = k
    · rw [if_pos hp, ih]
      by_cases hk : k' = k
      · simp [hk]
      · simp [mapGet, hk, show ¬ k' = pk from fun h => hk (h.trans hp)]
    · rw [if_neg hp]
      by_cases hk : k' = pk
      · simp [mapGet, hk, hp, show ¬ k' = k from fun h => hp (hk ▸ h)]
      · simp [mapGet, hk, ih]

theorem mapGet_insert {K V : Type} [DecidableEq K] (m : List (K × V)) (k k' : K) (v : V) :
    mapGet (mapInsert m k v) k' = if k' = k then some v else mapGet m k' := by
  by_cases hk : k' = k
  · simp [mapInsert, mapGet, hk]
  · simp [mapInsert, mapGet, mapGet_erase, hk]

theorem mapGet_clearPrefix {V : Type} (m : List ((Nat × Nat) × V)) (mid : Nat) (k : Nat × Nat) :
    mapGet (clearPrefix m mid) k = if k.1 = mid then none else mapGet m k := by
  induction m with
  | nil => simp [clearPrefix, mapGet]
  | cons p rest ih =>
    obtain ⟨pk, pv⟩ := p
    simp only [clearPrefix]
    by_cases hp : pk.1 = mid
    · rw [if_pos hp, ih]
      by_cases hk : k.1 = mid
      · simp [hk]
      · simp [mapGet, hk, show ¬ k = pk from fun h => hk (by rw [h]; exact hp)]
    · rw [if_neg hp]
      by_cases hk : k = pk
      · simp [mapGet, hk, hp, show ¬ k.1 = mid from by rw [hk]; exact hp]
      · simp [mapGet, hk, ih]
theorem trailingZeroRead_length (data : List Nat) (n : Nat) :
    (trailingZeroRead data n).length = n := by
  simp [trailingZeroRead]
  omega


theorem nodup_subset_length_le {α : Type} [DecidableEq α] {l l' : List α}
    (hn : l.Nodup) (hs : ∀ a ∈ l, a ∈ l') : l.length ≤ l'.length := by
  calc l.length = l.toFinset.card := (List.toFinset_card_of_nodup hn).symm
    _ ≤ l'.toFinset.card := Finset.card_le_card fun a ha =>
        List.mem_toFinset.mpr (hs a (List.mem_toFinset.mp ha))
    _ ≤ l'.length := List.toFinset_card_le l'

theorem ginv_initial (E : Type) (maxOwners : Nat) : GInv maxOwners (initialState E) := by
  refine ⟨?_, ?_, ?_⟩
  · intro k m h
    simp [initialState, mapGet] at h
  · intro mid m h
    simp [initialState, mapGet] at h
  · intro mid idx l h
    simp [initialState, mapGet] at h

theorem ginv_create {E : Type} (blake : List Nat → List Nat) (mo : Nat) (s : PalletState E)
    (who : AccountId) (owners : List AccountId) (threshold : Nat) (h : GInv mo s) :
    GInv mo (create_multisig blake mo s who owners threshold).1 := by
  obtain ⟨hF, hW, hA⟩ := h
  simp only [create_multisig]
  split_ifs with h1 h2 h3
  · exact ⟨hF, hW, hA⟩
  · exact ⟨hF, hW, hA⟩
  · dsimp only
    refine ⟨?_, ?_, ?_⟩
    · intro k m hk
      dsimp only [Fresh]
      simp only [mapGet_insert] at hk ⊢
      split at hk
      · omega
      · exact Nat.lt_succ_of_lt (hF k m hk)
    · intro mid m hm
      simp only [mapGet_insert] at hm
      split at hm
      · cases hm
        exact ⟨h2.1, h2.2, by dsimp only; omega⟩
      · exact hW mid m hm
    · intro mid idx l hl hne
      obtain ⟨m, hm, hmem, hnd, hlen⟩ := hA mid idx l hl hne
      refine ⟨m, ?_, hmem, hnd, hlen⟩
      have : mid < s.nextMultisigId := hF mid m hm
      simp only [mapGet_insert]
      rw [if_neg (by omega)]
      exact hm
  · exact ⟨hF, hW, hA⟩


theorem ginv_submit {C E : Type} (blake : List Nat → List Nat) (encode : C → List Nat)
    (mo : Nat) (s : PalletState E) (who : AccountId) (multisig_id : Nat) (call : C)
    (h : GInv mo s) : GInv mo (submit_proposal blake encode mo s who multisig_id call).1 := by
  obtain ⟨hF, hW, hA⟩ := h
  simp only [submit_proposal]
  cases hm : mapGet s.multisigs multisig_id with
  | none => exact ⟨hF, hW, hA⟩
  | some multisig =>
    dsimp only
    split_ifs with h1 h2 h3
    · exact ⟨hF, hW, hA⟩
    · dsimp only
      refine ⟨hF, hW, ?_⟩
      intro mid idx l hl hne
      simp only [mapGet_insert] at hl
      split at hl
      · rename_i hkey
        cases hl
        cases hkey
        refine ⟨multisig, hm, by simp [h1], List.nodup_singleton who, ?_⟩
        have := List.length_pos_of_mem h1
        simp only [List.length_singleton]
        omega
      · exact hA mid idx l hl hne
    · exact ⟨hF, hW, hA⟩
    · exact ⟨hF, hW, hA⟩

theorem ginv_confirm {E : Type} (mo : Nat) (s : PalletState E) (who : AccountId)
    (multisig_id proposal_index : Nat) (h : GInv mo s) :
    GInv mo (confirm_proposal mo s who multisig_id proposal_index).1 := by
  obtain ⟨hF, hW, hA⟩ := h
  simp only [confirm_proposal]
  cases hm : mapGet s.multisigs multisig_id with
  | none => exact ⟨hF, hW, hA⟩
  | some multisig =>
    dsimp only
    cases hp : mapGet s.proposals (multisig_id, proposal_index) with
    | none =>
      dsimp only
      split_ifs with h1
      · exact ⟨hF, hW, hA⟩
      · exact ⟨hF, hW, hA⟩
    | some proposal =>
      dsimp only
      split_ifs with h1 h2 h3 h4
      · exact ⟨hF, hW, hA⟩
      · exact ⟨hF, hW, hA⟩
      · dsimp only
        refine ⟨hF, hW, ?_⟩
        intro mid idx l hl hne
        simp only [mapGet_insert] at hl
        split at hl
        · rename_i hkey
          cases hl
          cases hkey
          have hsub : ∀ a ∈ approvalsOf s multisig_id proposal_index ++ [who],
              a ∈ multisig.owners := by
            intro a ha
            rcases List.mem_append.mp ha with hin | hin
            · rcases hap : mapGet s.approvals (multisig_id, proposal_index) with _ | old
              · simp [approvalsOf, hap] at hin
              · have hol : approvalsOf s multisig_id proposal_index = old := by
                  simp [approvalsOf, hap]
                rw [hol] at hin
                have hone : old ≠ [] := fun hnil => by simp [hnil] at hin
                obtain ⟨m, hm', hmem, _, _⟩ := hA multisig_id proposal_index old hap hone
                rw [hm] at hm'
                cases hm'
                exact hmem a hin
            · simp at hin
              rw [hin]
              exact h1
          have hnd : (approvalsOf s multisig_id proposal_index ++ [who]).Nodup := by
            have hndold : (approvalsOf s multisig_id proposal_index).Nodup := by
              rcases hap : mapGet s.approvals (multisig_id, proposal_index) with _ | old
              · simp [approvalsOf, hap]
              · have hol : approvalsOf s multisig_id proposal_index = old := by
                  simp [approvalsOf, hap]
                rw [hol]
                by_cases hnil : old = []
                · simp [hnil]
                · obtain ⟨m, _, _, hnd', _⟩ := hA multisig_id proposal_index old hap hnil
                  exact hnd'
            refine hndold.append (List.nodup_singleton who) ?_
            intro a hain hain'
            simp at hain'
            rw [hain'] at hain
            exact h3 hain
          exact ⟨multisig, hm, hsub, hnd, nodup_subset_length_le hnd hsub⟩
        · exact hA mid idx l hl hne
      · exact ⟨hF, hW, hA⟩
      · exact ⟨hF, hW, hA⟩

theorem ginv_execute {C E : Type} (blake : List Nat → List Nat) (encode : C → List Nat)
    (mo : Nat) (dispatch : C → AccountId → PalletState E → PalletState E × Except E Unit)
    (hd : PreservesGInv mo dispatch) (s : PalletState E) (who : AccountId)
    (multisig_id proposal_index : Nat) (call : C) (h : GInv mo s) :
    GInv mo (execute_proposal blake encode dispatch s who multisig_id proposal_index call).1 := by
  simp only [execute_proposal]
  cases hm : mapGet s.multisigs multisig_id with
  | none => exact h
  | some multisig =>
    dsimp only
    cases hp : mapGet s.proposals (multisig_id, proposal_index) with
    | none => exact h
    | some proposal =>
      dsimp only
      split_ifs with h1 h2 h3 h4
      · exact h
      · obtain ⟨hF1, hW1, hA1⟩ := hd call (multi_account_id blake multisig_id) s h
        exact ⟨hF1, hW1, hA1⟩
      · obtain ⟨hF1, hW1, hA1⟩ := hd call (multi_account_id blake multisig_id) s h
        exact ⟨hF1, hW1, hA1⟩
      · exact h
      · exact h

theorem ginv_destroy {E : Type} (blake : List Nat → List Nat) (balance : AccountId → Nat)
    (mo : Nat) (s : PalletState E) (who : AccountId) (multisig_id : Nat) (h : GInv mo s) :
    GInv mo (destroy_multisig blake balance s who multisig_id).1 := by
  obtain ⟨hF, hW, hA⟩ := h
  simp only [destroy_multisig]
  by_cases h1 : who = multi_account_id blake multisig_id
  · rw [if_pos h1]
    cases hm : mapGet s.multisigs multisig_id with
    | none => exact ⟨hF, hW, hA⟩
    | some multisig =>
      dsimp only
      split_ifs with h2
      · dsimp only
        refine ⟨?_, ?_, ?_⟩
        · intro k m hk
          rw [mapGet_erase] at hk
          split at hk
          · cases hk
          · exact hF k m hk
        · intro mid m hmm
          rw [mapGet_erase] at hmm
          split at hmm
          · cases hmm
          · exact hW mid m hmm
        · intro mid idx l hl hne
          rw [mapGet_clearPrefix] at hl
          split at hl
          · cases hl
          · rename_i hne2
            obtain ⟨m, hm', hmem, hnd, hlen⟩ := hA mid idx l hl hne
            refine ⟨m, ?_, hmem, hnd, hlen⟩
            rw [mapGet_erase, if_neg (by simpa using hne2)]
            exact hm'
      · exact ⟨hF, hW, hA⟩
  · rw [if_neg h1]
    exact ⟨hF, hW, hA⟩

/-- States reachable from genesis through the five extrinsics, for a fixed
hashing capability, call encoding and `MaxOwners` bound. The balance oracle
may differ at every destruction attempt (balances change between calls), and
the dispatcher handed to `execute_proposal` is any invariant-preserving
state transformer. -/
theorem ginv_reachable {C E : Type} {blake : List Nat → List Nat} {encode : C → List Nat}
    {maxOwners : Nat} {s : PalletState E}
    (h : Reachable blake encode maxOwners s) : GInv maxOwners s := by
  induction h with
  | init => exact ginv_initial E maxOwners
  | create s who owners threshold _ ih => exact ginv_create blake maxOwners s who owners threshold ih
  | submit s who multisig_id call _ ih =>
    exact ginv_submit blake encode maxOwners s who multisig_id call ih
  | confirm s who multisig_id proposal_index _ ih =>
    exact ginv_confirm maxOwners s who multisig_id proposal_index ih
  | execute dispatch s who multisig_id proposal_index call hd _ ih =>
    exact ginv_execute blake encode maxOwners dispatch hd s who multisig_id proposal_index call ih
  | destroy balance s who multisig_id _ ih =>
    exact ginv_destroy blake balance maxOwners s who multisig_id ih

/-- Any error returned by `execute_proposal` is one of the five precondition
failures. -/
theorem execute_error_cases {C E : Type} (blake : List Nat → List Nat) (encode : C → List Nat)
    (dispatch : C → AccountId → PalletState E → PalletState E × Except E Unit)
    (s : PalletState E) (who : AccountId) (multisig_id proposal_index : Nat) (call : C)
    (e : Error)
    (h : (execute_proposal blake encode dispatch s who multisig_id proposal_index call).2 =
      .error e) :
    e = .MultisigNotFound ∨ e = .ProposalNotFound ∨ e = .AlreadyExecuted ∨
      e = .CallHashMismatch ∨ e = .NotEnoughApprovals := by
  simp only [execute_proposal] at h
  rcases hm : mapGet s.multisigs multisig_id with _ | m
  · rw [hm] at h
    simp_all
  · rw [hm] at h
    dsimp only at h
    rcases hp : mapGet s.proposals (multisig_id, proposal_index) with _ | p
    · rw [hp] at h
      simp_all
    · rw [hp] at h
      dsimp only at h
      split_ifs at h <;> simp_all

/-- C9: address derivation is total and deterministic — the
`TrailingZeroInput` account decode succeeds on every digest (the `expect`
branch is unreachable), and `multi_account_id` applied twice to the same
seed yields the identical address. -/
theorem multi_account_id_total_deterministic :
    (∀ entropy : List Nat,
      decodeAccountFromTrailingZero 32 entropy = some (trailingZeroRead entropy 32)) ∧
    (∀ (blake : List Nat → List Nat) (seed : Nat),
      multi_account_id blake seed = multi_account_id blake seed) := by
  constructor
  · intro entropy
    simp [decodeAccountFromTrailingZero, trailingZeroRead_length]
  · intro blake seed
    rfl

/-- C10: `execute_proposal` performs no ownership check on its caller — two
different signed callers get the same result and final state, and the
operation never fails with `NotAnOwner`. -/
theorem execute_caller_irrelevant {C E : Type} (blake : List Nat → List Nat)
    (encode : C → List Nat)
    (dispatch : C → AccountId → PalletState E → PalletState E × Except E Unit)
    (s : PalletState E) (c1 c2 : AccountId) (multisig_id proposal_index : Nat) (call : C) :
    execute_proposal blake encode dispatch s c1 multisig_id proposal_index call =
      execute_proposal blake encode dispatch s c2 multisig_id proposal_index call ∧
    ∀ e : Error,
      (execute_proposal blake encode dispatch s c1 multisig_id proposal_index call).2 =
        .error e → e ≠ .NotAnOwner := by
  refine ⟨rfl, ?_⟩
  intro e he hne
  subst hne
  rcases execute_error_cases blake encode dispatch s c1 multisig_id proposal_index call _ he
    with h | h | h | h | h <;> cases h

theorem execute_caller_irrelevant_witness :
    (execute_proposal wBlake wEncode wDispatch (initialState Unit) [1] 0 0 5).2 =
      .error .MultisigNotFound ∧
    Error.MultisigNotFound ≠ Error.NotAnOwner :=
  ⟨rfl, (execute_caller_irrelevant wBlake wEncode wDispatch (initialState Unit)
    [1] [2] 0 0 5).2 .MultisigNotFound rfl⟩

/-- C3: in every reachable state, every non-empty approval set belongs to an
existing wallet, contains only owners of that wallet, has no duplicates, and
is no larger than the wallet's owner count. -/
theorem approval_set_invariant {C E : Type} {blake : List Nat → List Nat}
    {encode : C → List Nat} {maxOwners : Nat} {s : PalletState E}
    (h : Reachable blake encode maxOwners s) :
    ∀ mid idx l, mapGet s.approvals (mid, idx) = some l → l ≠ [] →
      ∃ m, mapGet s.multisigs mid = some m ∧ (∀ a ∈ l, a ∈ m.owners) ∧
        l.Nodup ∧ l.length ≤ m.owners.length :=
  (ginv_reachable h).2.2

theorem approval_set_invariant_witness :
    ∃ m, mapGet wsConfirmed.multisigs 0 = some m ∧
      (∀ a ∈ [[1], [2]], a ∈ m.owners) ∧
      ([[1], [2]] : List AccountId).Nodup ∧
      ([[1], [2]] : List AccountId).length ≤ m.owners.length :=
  approval_set_invariant
    (Reachable.confirm _ _ _ _ (Reachable.submit _ _ _ _
      (Reachable.create _ _ _ _ Reachable.init)))
    0 0 [[1], [2]] (by decide) (by decide)

/-- C4 counterexample: `create_multisig` performs no uniqueness check on the
owner list — creating a wallet with the duplicated owner list `[[1], [1]]`
succeeds from genesis, and the stored record's owners are not unique. -/
theorem wallet_owners_unique_counterexample :
    (create_multisig wBlake 10 (initialState Unit) [1] [[1], [1]] 2).2 = .ok () ∧
    Reachable wBlake wEncode 10 (create_multisig wBlake 10 (initialState Unit) [1] [[1], [1]] 2).1 ∧
    mapGet (create_multisig wBlake 10 (initialState Unit) [1] [[1], [1]] 2).1.multisigs 0 =
      some ⟨[[1], [1]], 2⟩ ∧
    ¬ ([[1], [1]] : List AccountId).Nodup :=
  ⟨by decide, Reachable.create _ _ _ _ Reachable.init, by decide, by decide⟩

/-- C4 (amended): every stored wallet record has an owners list (duplicates
not forbidden) of size between 1 and MaxOwners with
`1 ≤ threshold ≤ owners.count`; wallet records are inserted only by `create`
at the fresh counter value, are untouched by `submit`, `confirm`, and by
`execute` itself (beyond what its dispatcher does), and are removed only by
`destroy`. -/
theorem wallet_record_invariant {C E : Type} (blake : List Nat → List Nat)
    (encode : C → List Nat) (mo : Nat) (balance : AccountId → Nat)
    (dispatch : C → AccountId → PalletState E → PalletState E × Except E Unit)
    (s : PalletState E) (who : AccountId) (owners : List AccountId)
    (threshold multisig_id proposal_index : Nat) (call : C)
    (hreach : Reachable blake encode mo s) :
    (∀ mid m, mapGet s.multisigs mid = some m →
      1 ≤ m.owners.length ∧ m.owners.length ≤ mo ∧
        1 ≤ m.threshold ∧ m.threshold ≤ m.owners.length) ∧
    mapGet s.multisigs s.nextMultisigId = none ∧
    (submit_proposal blake encode mo s who multisig_id call).1.multisigs = s.multisigs ∧
    (confirm_proposal mo s who multisig_id proposal_index).1.multisigs = s.multisigs ∧
    ((execute_proposal blake encode dispatch s who multisig_id proposal_index call).1.multisigs =
        s.multisigs ∨
      (execute_proposal blake encode dispatch s who multisig_id proposal_index call).1.multisigs =
        (dispatch call (multi_account_id blake multisig_id) s).1.multisigs) ∧
    (∀ k, k ≠ s.nextMultisigId →
      mapGet (create_multisig blake mo s who owners threshold).1.multisigs k =
        mapGet s.multisigs k) ∧
    (∀ k, k ≠ multisig_id →
      mapGet (destroy_multisig blake balance s who multisig_id).1.multisigs k =
        mapGet s.multisigs k) := by
  obtain ⟨hF, hW, hA⟩ := ginv_reachable hreach
  refine ⟨?_, ?_, ?_, ?_, ?_, ?_, ?_⟩
  · intro mid m hm
    obtain ⟨h1, h2, h3⟩ := hW mid m hm
    exact ⟨by omega, h3, h1, h2⟩
  · rcases hfresh : mapGet s.multisigs s.nextMultisigId with _ | m
    · rfl
    · exact absurd (hF _ _ hfresh) (by omega)
  · simp only [submit_proposal]
    cases hm : mapGet s.multisigs multisig_id with
    | none => rfl
    | some m =>
      dsimp only
      split_ifs <;> rfl
  · simp only [confirm_proposal]
    cases hm : mapGet s.multisigs multisig_id with
    | none => rfl
    | some m =>
      dsimp only
      cases hp : mapGet s.proposals (multisig_id, proposal_index) with
      | none =>
        dsimp only
        split_ifs <;> rfl
      | some p =>
        dsimp only
        split_ifs <;> rfl
  · simp only [execute_proposal]
    cases hm : mapGet s.multisigs multisig_id with
    | none => exact Or.inl rfl
    | some m =>
      dsimp only
      cases hp : mapGet s.proposals (multisig_id, proposal_index) with
      | none => exact Or.inl rfl
      | some p =>
        dsimp only
        split_ifs <;> first | exact Or.inl rfl | exact Or.inr rfl
  · intro k hk
    simp only [create_multisig]
    split_ifs <;> try rfl
    dsimp only
    rw [mapGet_insert, if_neg hk]
  · intro k hk
    simp only [destroy_multisig]
    by_cases h1 : who = multi_account_id blake multisig_id
    · rw [if_pos h1]
      cases hm : mapGet s.multisigs multisig_id with
      | none => rfl
      | some m =>
        dsimp only
        split_ifs with h2
        · dsimp only
          rw [mapGet_erase, if_neg hk]
        · rfl
    · rw [if_neg h1]

theorem wallet_record_invariant_witness :
    ((∀ mid m, mapGet wsCreated.multisigs mid = some m →
      1 ≤ m.owners.length ∧ m.owners.length ≤ 10 ∧
        1 ≤ m.threshold ∧ m.threshold ≤ m.owners.length) ∧
    mapGet wsCreated.multisigs wsCreated.nextMultisigId = none ∧
    (submit_proposal wBlake wEncode 10 wsCreated [1] 0 5).1.multisigs = wsCreated.multisigs ∧
    (confirm_proposal 10 wsCreated [1] 0 0).1.multisigs = wsCreated.multisigs ∧
    ((execute_proposal wBlake wEncode wDispatch wsCreated [1] 0 0 5).1.multisigs =
        wsCreated.multisigs ∨
      (execute_proposal wBlake wEncode wDispatch wsCreated [1] 0 0 5).1.multisigs =
        (wDispatch 5 (multi_account_id wBlake 0) wsCreated).1.multisigs) ∧
    (∀ k, k ≠ wsCreated.nextMultisigId →
      mapGet (create_multisig wBlake 10 wsCreated [1] [[3]] 1).1.multisigs k =
        mapGet wsCreated.multisigs k) ∧
    (∀ k, k ≠ 0 →
      mapGet (destroy_multisig wBlake (fun _ => 0) wsCreated [1] 0).1.multisigs k =
        mapGet wsCreated.multisigs k)) :=
  wallet_record_invariant wBlake wEncode 10 (fun _ => 0) wDispatch wsCreated
    [1] [[3]] 1 0 0 5 (Reachable.create _ _ _ _ Reachable.init)

/-- C5: `destroy_multisig` fails `MustBeMultisig` (the spec's *MustBeSelf*)
for every caller other than the derived sovereign address, fails
`MultisigNotFound` when the wallet is absent, fails `NonZeroBalance` when
the sovereign balance is non-zero, and on success removes the wallet record,
the per-wallet index counter and every proposal and approval entry keyed by
the wallet id, and emits the destruction notification. -/
theorem destroy_multisig_spec {E : Type} (blake : List Nat → List Nat)
    (balance : AccountId → Nat) (s : PalletState E) (who : AccountId) (multisig_id : Nat) :
    (who ≠ multi_account_id blake multisig_id →
      destroy_multisig blake balance s who multisig_id = (s, .error .MustBeMultisig)) ∧
    (who = multi_account_id blake multisig_id →
      mapGet s.multisigs multisig_id = none →
      destroy_multisig blake balance s who multisig_id = (s, .error .MultisigNotFound)) ∧
    (∀ m, who = multi_account_id blake multisig_id →
      mapGet s.multisigs multisig_id = some m →
      balance (multi_account_id blake multisig_id) ≠ 0 →
      destroy_multisig blake balance s who multisig_id = (s, .error .NonZeroBalance)) ∧
    (∀ m, who = multi_account_id blake multisig_id →
      mapGet s.multisigs multisig_id = some m →
      balance (multi_account_id blake multisig_id) = 0 →
      (destroy_multisig blake balance s who multisig_id).2 = .ok () ∧
      mapGet (destroy_multisig blake balance s who multisig_id).1.multisigs multisig_id =
        none ∧
      mapGet (destroy_multisig blake balance s who multisig_id).1.nextProposalIndex
        multisig_id = none ∧
      (∀ idx, mapGet (destroy_multisig blake balance s who multisig_id).1.proposals
        (multisig_id, idx) = none) ∧
      (∀ idx, mapGet (destroy_multisig blake balance s who multisig_id).1.approvals
        (multisig_id, idx) = none) ∧
      (destroy_multisig blake balance s who multisig_id).1.events =
        s.events ++ [.MultisigDestroyed multisig_id]) := by
  refine ⟨?_, ?_, ?_, ?_⟩
  · intro h1
    simp [destroy_multisig, h1]
  · intro h1 hm
    simp [destroy_multisig, h1, hm]
  · intro m h1 hm hbal
    simp [destroy_multisig, h1, hm, hbal]
  · intro m h1 hm hbal
    simp only [destroy_multisig, if_pos h1]
    rw [hm]
    dsimp only
    rw [if_pos hbal]
    refine ⟨rfl, ?_, ?_, ?_, ?_, rfl⟩
    · dsimp only
      rw [mapGet_erase, if_pos rfl]
    · dsimp only
      rw [mapGet_erase, if_pos rfl]
    · intro idx
      dsimp only
      rw [mapGet_clearPrefix]
      simp
    · intro idx
      dsimp only
      rw [mapGet_clearPrefix]
      simp

theorem destroy_multisig_spec_witness :
    destroy_multisig wBlake (fun _ => 0) wsCreated [9] 0 =
      (wsCreated, .error .MustBeMultisig) ∧
    (destroy_multisig wBlake (fun _ => 0) wsCreated (multi_account_id wBlake 0) 0).2 =
      .ok () ∧
    mapGet (destroy_multisig wBlake (fun _ => 0) wsCreated
      (multi_account_id wBlake 0) 0).1.multisigs 0 = none :=
  have h := destroy_multisig_spec wBlake (fun _ => 0) wsCreated ([9] : AccountId) 0
  have h' := destroy_multisig_spec wBlake (fun _ => 0) wsCreated (multi_account_id wBlake 0) 0
  have hs := (h'.2.2.2 ⟨[[1], [2]], 2⟩ rfl (by decide) rfl)
  ⟨h.1 (by decide), hs.1, hs.2.1⟩

/-- C6: `submit_proposal` fails `MultisigNotFound` when the wallet is
absent, `NotAnOwner` when the proposer is not an owner, `StorageOverflow`
when the per-wallet index counter is exhausted; otherwise it allocates the
wallet's next proposal index, stores `{call_hash, executed := false}` there,
seeds the approval set with exactly the singleton proposer, and bumps the
counter by one. -/
theorem submit_proposal_spec {C E : Type} (blake : List Nat → List Nat)
    (encode : C → List Nat) (mo : Nat) (s : PalletState E) (who : AccountId)
    (multisig_id : Nat) (call : C) (hmo : 1 ≤ mo) :
    (mapGet s.multisigs multisig_id = none →
      submit_proposal blake encode mo s who multisig_id call =
        (s, .error .MultisigNotFound)) ∧
    (∀ m, mapGet s.multisigs multisig_id = some m → who ∉ m.owners →
      submit_proposal blake encode mo s who multisig_id call = (s, .error .NotAnOwner)) ∧
    (∀ m, mapGet s.multisigs multisig_id = some m → who ∈ m.owners →
      u32Max ≤ nextProposalIndexOf s multisig_id →
      submit_proposal blake encode mo s who multisig_id call =
        (s, .error .StorageOverflow)) ∧
    (∀ m, mapGet s.multisigs multisig_id = some m → who ∈ m.owners →
      nextProposalIndexOf s multisig_id < u32Max →
      (submit_proposal blake encode mo s who multisig_id call).2 = .ok () ∧
      mapGet (submit_proposal blake encode mo s who multisig_id call).1.proposals
        (multisig_id, nextProposalIndexOf s multisig_id) =
          some ⟨blake (encode call), false⟩ ∧
      mapGet (submit_proposal blake encode mo s who multisig_id call).1.approvals
        (multisig_id, nextProposalIndexOf s multisig_id) = some [who] ∧
      nextProposalIndexOf (submit_proposal blake encode mo s who multisig_id call).1
        multisig_id = nextProposalIndexOf s multisig_id + 1 ∧
      (submit_proposal blake encode mo s who multisig_id call).1.events =
        s.events ++ [.ProposalSubmitted multisig_id (nextProposalIndexOf s multisig_id)
          (blake (encode call))]) := by
  refine ⟨?_, ?_, ?_, ?_⟩
  · intro hm
    simp [submit_proposal, hm]
  · intro m hm hn
    simp only [submit_proposal]
    rw [hm]
    dsimp only
    rw [if_neg hn]
  · intro m hm hn hov
    simp only [submit_proposal]
    rw [hm]
    dsimp only
    rw [if_pos hn, if_pos hov]
  · intro m hm hn hov
    simp only [submit_proposal]
    rw [hm]
    dsimp only
    rw [if_pos hn, if_neg (by omega), if_pos hmo]
    refine ⟨rfl, ?_, ?_, ?_, rfl⟩
    · dsimp only
      rw [mapGet_insert, if_pos rfl]
    · dsimp only
      rw [mapGet_insert, if_pos rfl]
    · dsimp only [nextProposalIndexOf]
      rw [mapGet_insert, if_pos rfl]
      rfl

theorem submit_proposal_spec_witness :
    (submit_proposal wBlake wEncode 10 wsCreated [1] 0 5).2 = .ok () ∧
    mapGet (submit_proposal wBlake wEncode 10 wsCreated [1] 0 5).1.proposals (0, 0) =
      some ⟨[5], false⟩ ∧
    mapGet (submit_proposal wBlake wEncode 10 wsCreated [1] 0 5).1.approvals (0, 0) =
      some [[1]] ∧
    submit_proposal wBlake wEncode 10 wsCreated [9] 0 5 =
      (wsCreated, .error .NotAnOwner) :=
  have h := submit_proposal_spec wBlake wEncode 10 wsCreated [1] 0 5 (by decide)
  have h' := submit_proposal_spec wBlake wEncode 10 wsCreated [9] 0 5 (by decide)
  have hs := h.2.2.2 ⟨[[1], [2]], 2⟩ rfl (by decide) (by decide)
  ⟨hs.1, hs.2.1, hs.2.2.1, h'.2.1 ⟨[[1], [2]], 2⟩ rfl (by decide)⟩

/-- C8: `create_multisig` fails `TooManyOwners` exactly on an oversized
owner list, `InvalidThreshold` exactly on a zero or too-large threshold,
`StorageOverflow` exactly on id-counter exhaustion; otherwise it stores the
record under the current counter value, bumps the counter by one, and emits
the creation notification carrying the new id and its derived sovereign
address; on every reachable state the allocated id is fresh. -/
theorem create_multisig_spec {E : Type} (blake : List Nat → List Nat) (mo : Nat)
    (s : PalletState E) (who : AccountId) (owners : List AccountId) (threshold : Nat) :
    (owners.length > mo →
      create_multisig blake mo s who owners threshold = (s, .error .TooManyOwners)) ∧
    (owners.length ≤ mo → ¬(threshold > 0 ∧ threshold ≤ owners.length) →
      create_multisig blake mo s who owners threshold = (s, .error .InvalidThreshold)) ∧
    (owners.length ≤ mo → threshold > 0 ∧ threshold ≤ owners.length →
      u32Max ≤ s.nextMultisigId →
      create_multisig blake mo s who owners threshold = (s, .error .StorageOverflow)) ∧
    (owners.length ≤ mo → threshold > 0 ∧ threshold ≤ owners.length →
      s.nextMultisigId < u32Max →
      (create_multisig blake mo s who owners threshold).2 = .ok () ∧
      mapGet (create_multisig blake mo s who owners threshold).1.multisigs
        s.nextMultisigId = some ⟨owners, threshold⟩ ∧
      (create_multisig blake mo s who owners threshold).1.nextMultisigId =
        s.nextMultisigId + 1 ∧
      (create_multisig blake mo s who owners threshold).1.events = s.events ++
        [.MultisigCreated who s.nextMultisigId
          (multi_account_id blake s.nextMultisigId)]) ∧
    (∀ (C' : Type) (encode : C' → List Nat),
      Reachable (C := C') (E := E) blake encode mo s →
      mapGet s.multisigs s.nextMultisigId = none) := by
  refine ⟨?_, ?_, ?_, ?_, ?_⟩
  · intro h1
    simp [create_multisig, h1]
  · intro h1 h2
    simp only [create_multisig]
    rw [if_neg (by omega), if_pos h2]
  · intro h1 h2 h3
    simp only [create_multisig]
    rw [if_neg (by omega), if_neg (not_not_intro h2), if_pos h3]
  · intro h1 h2 h3
    simp only [create_multisig]
    rw [if_neg (by omega), if_neg (not_not_intro h2), if_neg (by omega)]
    refine ⟨rfl, ?_, rfl, rfl⟩
    dsimp only
    rw [mapGet_insert, if_pos rfl]
  · intro C' encode hreach
    rcases hfresh : mapGet s.multisigs s.nextMultisigId with _ | m
    · rfl
    · exact absurd ((ginv_reachable hreach).1 _ _ hfresh) (by omega)

theorem create_multisig_spec_witness :
    (create_multisig wBlake 10 (initialState Unit) [1] [[1], [2]] 2).2 = .ok () ∧
    mapGet (create_multisig wBlake 10 (initialState Unit) [1] [[1], [2]] 2).1.multisigs 0 =
      some ⟨[[1], [2]], 2⟩ ∧
    (create_multisig wBlake 10 (initialState Unit) [1] [[1], [2]] 2).1.nextMultisigId = 1 ∧
    mapGet (initialState Unit).multisigs 0 = none ∧
    create_multisig wBlake 10 (initialState Unit) [1] [[1], [2]] 0 =
      (initialState Unit, .error .InvalidThreshold) :=
  have h := create_multisig_spec wBlake 10 (initialState Unit) [1] [[1], [2]] 2
  have hs := h.2.2.2.1 (by decide) (by decide) (by decide)
  have h0 := create_multisig_spec wBlake 10 (initialState Unit) [1] [[1], [2]] 0
  ⟨hs.1, hs.2.1, hs.2.2.1, h.2.2.2.2 Nat wEncode Reachable.init,
    h0.2.1 (by decide) (by decide)⟩

/-- C7: on every error return the operation leaves the state exactly as it
found it (for `submit_proposal` this relies on `MaxOwners ≥ 1`, without
which the seeding push could fail after the index and proposal writes; a
wallet can only exist when `MaxOwners ≥ 1`); for `execute_proposal` only
the outer result is concerned, the inner dispatch being decoupled. -/
theorem error_atomicity {C E : Type} (blake : List Nat → List Nat) (encode : C → List Nat)
    (mo : Nat) (balance : AccountId → Nat)
    (dispatch : C → AccountId → PalletState E → PalletState E × Except E Unit)
    (s : PalletState E) (who : AccountId) (owners : List AccountId)
    (threshold multisig_id proposal_index : Nat) (call : C) (hmo : 1 ≤ mo) :
    (∀ e, (create_multisig blake mo s who owners threshold).2 = .error e →
      (create_multisig blake mo s who owners threshold).1 = s) ∧
    (∀ e, (submit_proposal blake encode mo s who multisig_id call).2 = .error e →
      (submit_proposal blake encode mo s who multisig_id call).1 = s) ∧
    (∀ e, (confirm_proposal mo s who multisig_id proposal_index).2 = .error e →
      (confirm_proposal mo s who multisig_id proposal_index).1 = s) ∧
    (∀ e, (execute_proposal blake encode dispatch s who multisig_id proposal_index
        call).2 = .error e →
      (execute_proposal blake encode dispatch s who multisig_id proposal_index call).1 =
        s) ∧
    (∀ e, (destroy_multisig blake balance s who multisig_id).2 = .error e →
      (destroy_multisig blake balance s who multisig_id).1 = s) := by
  refine ⟨?_, ?_, ?_, ?_, ?_⟩
  · intro e he
    simp only [create_multisig] at he ⊢
    split_ifs at he ⊢ <;> rfl
  · intro e he
    simp only [submit_proposal] at he ⊢
    rcases hm : mapGet s.multisigs multisig_id with _ | m
    · rfl
    · rw [hm] at he
      dsimp only at he ⊢
      by_cases h1 : who ∈ m.owners
      · rw [if_pos h1] at he ⊢
        by_cases h2 : u32Max ≤ nextProposalIndexOf s multisig_id
        · rw [if_pos h2] at he ⊢
        · rw [if_neg h2, if_pos hmo] at he ⊢
          simp at he
      · rw [if_neg h1] at he ⊢
  · intro e he
    simp only [confirm_proposal] at he ⊢
    rcases hm : mapGet s.multisigs multisig_id with _ | m
    · rfl
    · rw [hm] at he
      dsimp only at he ⊢
      rcases hp : mapGet s.proposals (multisig_id, proposal_index) with _ | p
      · split_ifs <;> rfl
      · rw [hp] at he
        dsimp only at he ⊢
        by_cases h1 : who ∈ m.owners
        · rw [if_pos h1] at he ⊢
          by_cases hx : p.executed = true
          · rw [if_pos hx] at he ⊢
          · rw [if_neg hx] at he ⊢
            by_cases hc : who ∈ approvalsOf s multisig_id proposal_index
            · rw [if_pos hc] at he ⊢
            · rw [if_neg hc] at he ⊢
              by_cases hl : (approvalsOf s multisig_id proposal_index).length + 1 ≤ mo
              · rw [if_pos hl] at he ⊢
                simp at he
              · rw [if_neg hl] at he ⊢
        · rw [if_neg h1] at he ⊢
  · intro e he
    simp only [execute_proposal] at he ⊢
    rcases hm : mapGet s.multisigs multisig_id with _ | m
    · rfl
    · rw [hm] at he
      dsimp only at he ⊢
      rcases hp : mapGet s.proposals (multisig_id, proposal_index) with _ | p
      · rfl
      · rw [hp] at he
        dsimp only at he ⊢
        by_cases hx : p.executed = true
        · rw [if_pos hx] at he ⊢
        · rw [if_neg hx] at he ⊢
          by_cases hh : p.call_hash = blake (encode call)
          · rw [if_pos hh] at he ⊢
            by_cases ht : m.threshold ≤ (approvalsOf s multisig_id proposal_index).length
            · rw [if_pos ht] at he ⊢
              simp at he
            · rw [if_neg ht] at he ⊢
          · rw [if_neg hh] at he ⊢
  · intro e he
    simp only [destroy_multisig] at he ⊢
    by_cases h1 : who = multi_account_id blake multisig_id
    · rw [if_pos h1] at he ⊢
      rcases hm : mapGet s.multisigs multisig_id with _ | m
      · rfl
      · rw [hm] at he
        dsimp only at he ⊢
        by_cases hb : balance (multi_account_id blake multisig_id) = 0
        · rw [if_pos hb] at he ⊢
          simp at he
        · rw [if_neg hb] at he ⊢
    · rw [if_neg h1] at he ⊢

theorem error_atomicity_witness :
    (create_multisig wBlake 10 (initialState Unit) [1]
      [[1], [1], [1], [1], [1], [1], [1], [1], [1], [1], [1]] 2).1 = initialState Unit ∧
    (submit_proposal wBlake wEncode 10 (initialState Unit) [1] 0 5).1 = initialState Unit ∧
    (destroy_multisig wBlake (fun _ => 0) (initialState Unit) [1] 0).1 = initialState Unit :=
  have h := error_atomicity wBlake wEncode 10 (fun _ => 0) wDispatch (initialState Unit)
    [1] [[1], [1], [1], [1], [1], [1], [1], [1], [1], [1], [1]] 2 0 0 5 (by decide)
  ⟨h.1 .TooManyOwners (by decide), h.2.1 .MultisigNotFound (by decide),
    h.2.2.2.2 .MustBeMultisig (by decide)⟩

/-- C1: when the wallet and the unexecuted proposal exist, the payload hash
matches and the approvals reach the threshold, `execute_proposal` succeeds
and dispatches the payload under the wallet's derived sovereign address; it
marks the stored proposal `executed := true` exactly when the dispatch
succeeded and the wallet record still exists afterwards, and otherwise
leaves the proposal store exactly as the dispatcher left it (so the flag
stays `false`, permitting a retry); below threshold it fails
`NotEnoughApprovals`, and on a hash mismatch it fails `CallHashMismatch`. -/
theorem execute_proposal_spec {C E : Type} (blake : List Nat → List Nat)
    (encode : C → List Nat)
    (dispatch : C → AccountId → PalletState E → PalletState E × Except E Unit)
    (s : PalletState E) (who : AccountId) (multisig_id proposal_index : Nat) (call : C)
    (m : Multisig) (p : Proposal)
    (hm : mapGet s.multisigs multisig_id = some m)
    (hp : mapGet s.proposals (multisig_id, proposal_index) = some p)
    (hexec : p.executed = false) :
    (p.call_hash = blake (encode call) →
      m.threshold ≤ (approvalsOf s multisig_id proposal_index).length →
      (execute_proposal blake encode dispatch s who multisig_id proposal_index call).2 =
        .ok () ∧
      ((exceptIsOk (dispatch call (multi_account_id blake multisig_id) s).2 &&
          (mapGet (dispatch call (multi_account_id blake multisig_id) s).1.multisigs
            multisig_id).isSome) = true →
        mapGet (execute_proposal blake encode dispatch s who multisig_id proposal_index
          call).1.proposals (multisig_id, proposal_index) = some ⟨p.call_hash, true⟩) ∧
      ((exceptIsOk (dispatch call (multi_account_id blake multisig_id) s).2 &&
          (mapGet (dispatch call (multi_account_id blake multisig_id) s).1.multisigs
            multisig_id).isSome) = false →
        (execute_proposal blake encode dispatch s who multisig_id proposal_index
          call).1.proposals =
          (dispatch call (multi_account_id blake multisig_id) s).1.proposals)) ∧
    (p.call_hash = blake (encode call) →
      (approvalsOf s multisig_id proposal_index).length < m.threshold →
      execute_proposal blake encode dispatch s who multisig_id proposal_index call =
        (s, .error .NotEnoughApprovals)) ∧
    (p.call_hash ≠ blake (encode call) →
      execute_proposal blake encode dispatch s who multisig_id proposal_index call =
        (s, .error .CallHashMismatch)) := by
  refine ⟨?_, ?_, ?_⟩
  · intro hh ht
    simp only [execute_proposal]
    rw [hm]
    dsimp only
    rw [hp]
    dsimp only
    rw [if_neg (by simp [hexec]), if_pos hh, if_pos ht]
    dsimp only
    refine ⟨rfl, ?_, ?_⟩
    · intro hcond
      rw [if_pos hcond]
      dsimp only
      rw [mapGet_insert, if_pos rfl]
    · intro hcond
      rw [if_neg (by simp [hcond])]
  · intro hh ht
    simp only [execute_proposal]
    rw [hm]
    dsimp only
    rw [hp]
    dsimp only
    rw [if_neg (by simp [hexec]), if_pos hh, if_neg (by omega)]
  · intro hh
    simp only [execute_proposal]
    rw [hm]
    dsimp only
    rw [hp]
    dsimp only
    rw [if_neg (by simp [hexec]), if_neg (fun hcontra => hh hcontra)]

theorem execute_proposal_spec_witness :
    (execute_proposal wBlake wEncode wDispatch wsConfirmed [9] 0 0 5).2 = .ok () ∧
    mapGet (execute_proposal wBlake wEncode wDispatch wsConfirmed [9] 0 0 5).1.proposals
      (0, 0) = some ⟨[5], true⟩ ∧
    execute_proposal wBlake wEncode wDispatch wsSubmitted [9] 0 0 5 =
      (wsSubmitted, .error .NotEnoughApprovals) ∧
    execute_proposal wBlake wEncode wDispatch wsConfirmed [9] 0 0 6 =
      (wsConfirmed, .error .CallHashMismatch) :=
  have h := execute_proposal_spec wBlake wEncode wDispatch wsConfirmed [9] 0 0 5
    ⟨[[1], [2]], 2⟩ ⟨[5], false⟩ rfl rfl rfl
  have hq := execute_proposal_spec wBlake wEncode wDispatch wsSubmitted [9] 0 0 5
    ⟨[[1], [2]], 2⟩ ⟨[5], false⟩ rfl rfl rfl
  have hx := execute_proposal_spec wBlake wEncode wDispatch wsConfirmed [9] 0 0 6
    ⟨[[1], [2]], 2⟩ ⟨[5], false⟩ rfl rfl rfl
  have hok := h.1 rfl (by decide)
  ⟨hok.1, hok.2.1 (by decide), hq.2.1 rfl (by decide), hx.2.2 (by decide)⟩

/-- C2: the outer `execute_proposal` can fail only with one of the five
precondition errors; once the preconditions pass it returns success whatever
the inner dispatch result is, leaves the approval sets and (on a failed
commit condition) the proposal store exactly as the dispatcher left them,
and always appends the execution notification carrying the inner result. -/
theorem execute_outer_spec {C E : Type} (blake : List Nat → List Nat)
    (encode : C → List Nat)
    (dispatch : C → AccountId → PalletState E → PalletState E × Except E Unit)
    (s : PalletState E) (who : AccountId) (multisig_id proposal_index : Nat) (call : C) :
    (∀ e, (execute_proposal blake encode dispatch s who multisig_id proposal_index
        call).2 = .error e →
      e = .MultisigNotFound ∨ e = .ProposalNotFound ∨ e = .AlreadyExecuted ∨
        e = .CallHashMismatch ∨ e = .NotEnoughApprovals) ∧
    (∀ m p, mapGet s.multisigs multisig_id = some m →
      mapGet s.proposals (multisig_id, proposal_index) = some p →
      p.executed = false → p.call_hash = blake (encode call) →
      m.threshold ≤ (approvalsOf s multisig_id proposal_index).length →
      (execute_proposal blake encode dispatch s who multisig_id proposal_index call).2 =
        .ok () ∧
      (execute_proposal blake encode dispatch s who multisig_id proposal_index
        call).1.approvals =
        (dispatch call (multi_account_id blake multisig_id) s).1.approvals ∧
      ((exceptIsOk (dispatch call (multi_account_id blake multisig_id) s).2 &&
          (mapGet (dispatch call (multi_account_id blake multisig_id) s).1.multisigs
            multisig_id).isSome) = false →
        (execute_proposal blake encode dispatch s who multisig_id proposal_index
          call).1.proposals =
          (dispatch call (multi_account_id blake multisig_id) s).1.proposals) ∧
      (execute_proposal blake encode dispatch s who multisig_id proposal_index
        call).1.events =
        (dispatch call (multi_account_id blake multisig_id) s).1.events ++
          [.ProposalExecuted multisig_id proposal_index
            (dispatch call (multi_account_id blake multisig_id) s).2]) := by
  refine ⟨?_, ?_⟩
  · intro e he
    exact execute_error_cases blake encode dispatch s who multisig_id proposal_index call e he
  · intro m p hm hp hexec hh ht
    simp only [execute_proposal]
    rw [hm]
    dsimp only
    rw [hp]
    dsimp only
    rw [if_neg (by simp [hexec]), if_pos hh, if_pos ht]
    dsimp only
    refine ⟨rfl, ?_, ?_, ?_⟩
    · cases hcond : (exceptIsOk (dispatch call (multi_account_id blake multisig_id) s).2 &&
          (mapGet (dispatch call (multi_account_id blake multisig_id) s).1.multisigs
            multisig_id).isSome)
      · rw [if_neg (by simp [hcond])]
      · rfl
    · intro hcond
      rw [if_neg (by simp [hcond])]
    · cases hcond : (exceptIsOk (dispatch call (multi_account_id blake multisig_id) s).2 &&
          (mapGet (dispatch call (multi_account_id blake multisig_id) s).1.multisigs
            multisig_id).isSome)
      · rw [if_neg (by simp [hcond])]
      · rfl

theorem execute_outer_spec_witness :
    (execute_proposal wBlake wEncode wDispatchFail wsConfirmed [9] 0 0 5).2 = .ok () ∧
    (execute_proposal wBlake wEncode wDispatchFail wsConfirmed [9] 0 0 5).1.approvals =
      wsConfirmed.approvals ∧
    (execute_proposal wBlake wEncode wDispatchFail wsConfirmed [9] 0 0 5).1.proposals =
      wsConfirmed.proposals ∧
    (execute_proposal wBlake wEncode wDispatchFail wsConfirmed [9] 0 0 5).1.events =
      wsConfirmed.events ++ [.ProposalExecuted 0 0 (.error ())] :=
  have h := (execute_outer_spec wBlake wEncode wDispatchFail wsConfirmed [9] 0 0 5).2
    ⟨[[1], [2]], 2⟩ ⟨[5], false⟩ rfl rfl rfl rfl (by decide)
  ⟨h.1, h.2.1, h.2.2.1 (by decide), h.2.2.2⟩

end MultisigPallet
